import Mathlib

/-!
Shallow embedding of the SimpleMicroservices Owner/Pet FastAPI application
(src/main.py, src/models/owner.py).

Modelling conventions:
- Python dicts (the in-memory OWNERS and PETS maps) are insertion-ordered
  association lists from keys to records.  Assignment `d[k] = v` replaces the
  value in place when `k` is present and appends at the end otherwise, which is
  exactly the behaviour of a Python dict.
- UUIDs are abstracted to natural numbers; `uuid4` (always used as a fresh-id
  source by the default factories of the `id` fields) is modelled as a monotone
  counter `nextId` held in the state, together with a ghost list `issued` of
  every id the supply has handed out so far.
- Wall-clock readings (`datetime.utcnow`) are natural numbers.  Each handler
  that reads the clock receives the reading `now` as an argument and records it
  in the state field `clock`; the real clock being non-decreasing corresponds
  to the side condition `s.clock ≤ now` in the reachability relation below.
  The several `utcnow` calls inside one request are modelled as one reading.
- `raise HTTPException(status, detail)` is `Except.error ⟨status, detail⟩`;
  every handler returns its response paired with the post-state.
- Pydantic response serialization narrows the `pets` entries of an Owner to
  the `PetBase` fields, so the `pets` field is embedded as `List PetBase` and
  the handler lines that assign the live `PetRead` list to it are embedded as
  that list narrowed through `PetRead.toBase`.
-/

namespace OwnerPet

/-- Insertion-ordered association list standing for a Python dict keyed by
UUIDs (abstracted to naturals). -/
abbrev Dict (α : Type) : Type := List (Nat × α)

namespace Dict

/-- Python `d.get(k)`: the value stored at `k`, or `none`. -/
def get {α : Type} : Dict α → Nat → Option α
  | [], _ => none
  | (k', v) :: d, k => if k' = k then some v else get d k

/-- Python `k in d`. -/
def hasKey {α : Type} (d : Dict α) (k : Nat) : Bool :=
  (get d k).isSome

/-- Python `d[k] = v`: replace in place when the key is present, append
otherwise. -/
def set {α : Type} : Dict α → Nat → α → Dict α
  | [], k, v => [(k, v)]
  | (k', v') :: d, k, v =>
    if k' = k then (k, v) :: d else (k', v') :: set d k v

/-- Python `del d[k]` (cleans out every entry with key `k`; the code only
deletes keys it has just looked up). -/
def erase {α : Type} (d : Dict α) (k : Nat) : Dict α :=
  d.filter (fun kv => kv.fst != k)

/-- Python `d.values()`, in insertion order. -/
def values {α : Type} (d : Dict α) : List α :=
  d.map Prod.snd

/-- Python `d.keys()`, in insertion order. -/
def keys {α : Type} (d : Dict α) : List Nat :=
  d.map Prod.fst

end Dict

/-- Modelled from the spec: the Pet summary schema (`PetBase` in the missing
file src/models/pet.py).  Per the embedded examples in src/models/owner.py a
summary carries a persistent id, a name and a species. -/
structure PetBase where
  id : Nat
  name : String
  species : String
deriving Repr, DecidableEq

/-- Modelled from the spec: the stored Pet record (`PetRead` in the missing
file src/models/pet.py): server-generated `id`, required `owner_id` foreign
key, descriptive fields, and the two server timestamps. -/
structure PetRead where
  id : Nat
  owner_id : Nat
  name : String
  species : String
  created_at : Nat
  updated_at : Nat
deriving Repr, DecidableEq

/-- The `PetBase` summary of a stored Pet (what pydantic keeps of it when it
is serialized inside an Owner response). -/
def PetRead.toBase (p : PetRead) : PetBase :=
  { id := p.id, name := p.name, species := p.species }

/-- Modelled from the spec: the Pet creation payload (`PetCreate` in the
missing file src/models/pet.py).  `owner_id` is required at creation; `id` and
the timestamps are server-generated. -/
structure PetCreate where
  owner_id : Nat
  name : String
  species : String
deriving Repr, DecidableEq

/-- Modelled from the spec: the Pet partial-update payload (`PetUpdate` in the
missing file src/models/pet.py).  All fields optional; `none` means the field
was not supplied.  The spec notes `owner_id` may be changed by an update and is
not re-validated. -/
structure PetUpdate where
  owner_id : Option Nat := none
  name : Option String := none
  species : Option String := none
deriving Repr, DecidableEq

/-- The stored Owner record (`OwnerRead` in src/models/owner.py): the
`OwnerBase` fields plus server-generated `id` and timestamps.  Calendar dates
are abstracted to naturals, emails to strings. -/
structure OwnerRead where
  id : Nat
  first_name : String
  last_name : String
  phone : String
  email : Option String
  birth_date : Option Nat
  pets : List PetBase
  created_at : Nat
  updated_at : Nat
deriving Repr, DecidableEq

/-- The Owner creation payload (`OwnerCreate` in src/models/owner.py): it
inherits every `OwnerBase` field, including the client-suppliable `pets`
list. -/
structure OwnerCreate where
  first_name : String
  last_name : String
  phone : String
  email : Option String := none
  birth_date : Option Nat := none
  pets : List PetBase := []
deriving Repr, DecidableEq

/-- The Owner partial-update payload (`OwnerUpdate` in src/models/owner.py).
The outer `Option` is pydantic field-set tracking (`exclude_unset`):
`none` = not supplied.  Every field of the schema is `Optional[...] = None`,
so a supplied value is itself an `Option`: in particular an explicit JSON
null for `first_name`, `last_name` or `phone` is schema-valid here even
though those fields are required plain strings on `OwnerRead`. -/
structure OwnerUpdate where
  first_name : Option (Option String) := none
  last_name : Option (Option String) := none
  phone : Option (Option String) := none
  email : Option (Option String) := none
  birth_date : Option (Option Nat) := none
deriving Repr, DecidableEq

/-- `HTTPException(status_code, detail)`. -/
structure HErr where
  status : Nat
  detail : String
deriving Repr, DecidableEq

/-- The whole mutable state of the process: the two storage maps, the fresh-id
supply (with its ghost issue log) and the last clock reading. -/
structure AppState where
  OWNERS : Dict OwnerRead
  PETS : Dict PetRead
  nextId : Nat
  issued : List Nat
  clock : Nat
deriving Repr, DecidableEq

/-- The state at process start: both maps empty. -/
def initialState : AppState :=
  { OWNERS := [], PETS := [], nextId := 0, issued := [], clock := 0 }

/-- The comprehension `[p for p in PETS.values() if p.owner_id == oid]`,
narrowed to the `PetBase` summaries the Owner response model keeps. -/
def livePetsOf (s : AppState) (oid : Nat) : List PetBase :=
  ((Dict.values s.PETS).filter (fun p => p.owner_id == oid)).map PetRead.toBase

/-- `o.pets = [p for p in PETS.values() if p.owner_id == o.id]` applied to an
owner record. -/
def refreshPets (s : AppState) (o : OwnerRead) : OwnerRead :=
  { o with pets := livePetsOf s o.id }

/-- POST /owners (src/main.py lines 45-49): `OwnerRead(**payload.model_dump())`
fills `id` and the two timestamps from the default factories and everything
else, `pets` included, from the payload; the record is stored under its own
id.  The `created_at` and `updated_at` factories are two separate
`datetime.utcnow()` calls (src/models/owner.py lines 125-134), evaluated in
field order, so they are two readings `now1 ≤ now2` that need not be equal. -/
def create_owner (s : AppState) (now1 now2 : Nat) (payload : OwnerCreate) :
    OwnerRead × AppState :=
  let owner : OwnerRead :=
    { id := s.nextId
      first_name := payload.first_name
      last_name := payload.last_name
      phone := payload.phone
      email := payload.email
      birth_date := payload.birth_date
      pets := payload.pets
      created_at := now1
      updated_at := now2 }
  (owner,
    { s with
      OWNERS := Dict.set s.OWNERS owner.id owner
      nextId := s.nextId + 1
      issued := s.issued ++ [owner.id]
      clock := now2 })

/-- GET /owners (src/main.py lines 51-55): refreshes the `pets` field of every
stored owner in place, then returns the values. -/
def list_owners (s : AppState) : List OwnerRead × AppState :=
  let d := s.OWNERS.map (fun kv => (kv.fst, refreshPets s kv.snd))
  (Dict.values d, { s with OWNERS := d })

/-- GET /owners/{owner_id} (src/main.py lines 57-63): 404 when absent,
otherwise refreshes the stored record in place (the filter compares against
`owner.id`) and returns it. -/
def get_owner (s : AppState) (owner_id : Nat) :
    Except HErr OwnerRead × AppState :=
  match Dict.get s.OWNERS owner_id with
  | none => (Except.error ⟨404, "Owner not found"⟩, s)
  | some owner =>
    let o := refreshPets s owner
    (Except.ok o, { s with OWNERS := Dict.set s.OWNERS owner_id o })

/-- The merge `data.update(payload.model_dump(exclude_unset=True))` followed
by `data["updated_at"] = utcnow` and the re-validation `OwnerRead(**data)`,
for an Owner.  A field not supplied keeps the old value; a supplied value
(possibly an explicit null) replaces it.  Re-validation then demands plain
strings for `first_name`, `last_name` and `phone`: if the merged value of one
of them is null, `OwnerRead(**data)` raises a pydantic ValidationError and no
record is produced (`none`). -/
def applyOwnerUpdate (o : OwnerRead) (u : OwnerUpdate) (now : Nat) :
    Option OwnerRead :=
  match u.first_name.getD (some o.first_name) with
  | none => none
  | some fn =>
    match u.last_name.getD (some o.last_name) with
    | none => none
    | some ln =>
      match u.phone.getD (some o.phone) with
      | none => none
      | some ph =>
        some { o with
          first_name := fn
          last_name := ln
          phone := ph
          email := u.email.getD o.email
          birth_date := u.birth_date.getD o.birth_date
          updated_at := now }

/-- PATCH /owners/{owner_id} (src/main.py lines 65-76): 404 when absent,
otherwise merge the supplied fields and stamp `updated_at`.  When the merged
record fails the `OwnerRead(**data)` re-validation (an explicit null supplied
for a required field), the uncaught ValidationError surfaces as an HTTP 500
response before anything is stored, so the state is unchanged.  Otherwise
`pets` is overwritten with the live recomputation (the filter compares
against the path parameter) and the result stored back. -/
def patch_owner (s : AppState) (now : Nat) (owner_id : Nat) (payload : OwnerUpdate) :
    Except HErr OwnerRead × AppState :=
  match Dict.get s.OWNERS owner_id with
  | none => (Except.error ⟨404, "Owner not found"⟩, s)
  | some owner =>
    match applyOwnerUpdate owner payload now with
    | none => (Except.error ⟨500, "Internal Server Error"⟩, s)
    | some merged =>
      let updated := { merged with pets := livePetsOf s owner_id }
      (Except.ok updated,
        { s with OWNERS := Dict.set s.OWNERS owner_id updated, clock := now })

/-- PUT /owners/{owner_id} (src/main.py lines 78-80): unconditionally 501. -/
def put_owner_placeholder (s : AppState) (owner_id : Nat) :
    Except HErr Unit × AppState :=
  (Except.error ⟨501, "Not implemented"⟩, s)

/-- DELETE /owners/{owner_id} (src/main.py lines 82-89): 404 when absent,
otherwise delete every pet whose `owner_id` matches, then the owner itself. -/
def delete_owner (s : AppState) (owner_id : Nat) :
    Except HErr Unit × AppState :=
  if Dict.hasKey s.OWNERS owner_id then
    (Except.ok (),
      { s with
        PETS := s.PETS.filter (fun kv => kv.snd.owner_id != owner_id)
        OWNERS := Dict.erase s.OWNERS owner_id })
  else
    (Except.error ⟨404, "Owner not found"⟩, s)

/-- POST /pets (src/main.py lines 92-98): 400 when the payload references an
unknown owner, otherwise build the record (fresh `id`, current timestamps) and
store it under its own id.  As for Owners, the two timestamp default
factories are two separate clock readings `now1 ≤ now2`. -/
def create_pet (s : AppState) (now1 now2 : Nat) (payload : PetCreate) :
    Except HErr PetRead × AppState :=
  if Dict.hasKey s.OWNERS payload.owner_id then
    let pet : PetRead :=
      { id := s.nextId
        owner_id := payload.owner_id
        name := payload.name
        species := payload.species
        created_at := now1
        updated_at := now2 }
    (Except.ok pet,
      { s with
        PETS := Dict.set s.PETS pet.id pet
        nextId := s.nextId + 1
        issued := s.issued ++ [pet.id]
        clock := now2 })
  else
    (Except.error ⟨400, "owner_id does not exist"⟩, s)

/-- GET /pets (src/main.py lines 100-102). -/
def list_pets (s : AppState) : List PetRead × AppState :=
  (Dict.values s.PETS, s)

/-- GET /pets/{pet_id} (src/main.py lines 104-109): 404 when absent. -/
def get_pet (s : AppState) (pet_id : Nat) : Except HErr PetRead × AppState :=
  match Dict.get s.PETS pet_id with
  | none => (Except.error ⟨404, "Pet not found"⟩, s)
  | some pet => (Except.ok pet, s)

/-- The merge for a Pet partial update: supplied fields overwrite, then
`updated_at` is stamped. -/
def applyPetUpdate (p : PetRead) (u : PetUpdate) (now : Nat) : PetRead :=
  { p with
    owner_id := u.owner_id.getD p.owner_id
    name := u.name.getD p.name
    species := u.species.getD p.species
    updated_at := now }

/-- PATCH /pets/{pet_id} (src/main.py lines 111-121): 404 when absent,
otherwise merge and store back.  Note the `owner_id` supplied by the payload is
not checked against the Owner map. -/
def patch_pet (s : AppState) (now : Nat) (pet_id : Nat) (payload : PetUpdate) :
    Except HErr PetRead × AppState :=
  match Dict.get s.PETS pet_id with
  | none => (Except.error ⟨404, "Pet not found"⟩, s)
  | some pet =>
    let updated := applyPetUpdate pet payload now
    (Except.ok updated,
      { s with PETS := Dict.set s.PETS pet_id updated, clock := now })

/-- PUT /pets/{pet_id} (src/main.py lines 123-125): unconditionally 501. -/
def put_pet_placeholder (s : AppState) (pet_id : Nat) :
    Except HErr Unit × AppState :=
  (Except.error ⟨501, "Not implemented"⟩, s)

/-- DELETE /pets/{pet_id} (src/main.py lines 127-132): 404 when absent. -/
def delete_pet (s : AppState) (pet_id : Nat) : Except HErr Unit × AppState :=
  if Dict.hasKey s.PETS pet_id then
    (Except.ok (), { s with PETS := Dict.erase s.PETS pet_id })
  else
    (Except.error ⟨404, "Pet not found"⟩, s)

/-- The states the application can actually be in: `initialState` plus closure
under every handler, the clock reading of each request being no earlier than
the previous one. -/
inductive Reachable : AppState → Prop where
  | init : Reachable initialState
  | createOwner {s : AppState} {now1 now2 : Nat} {p : OwnerCreate} :
      Reachable s → s.clock ≤ now1 → now1 ≤ now2 →
      Reachable (create_owner s now1 now2 p).2
  | listOwners {s : AppState} :
      Reachable s → Reachable (list_owners s).2
  | getOwner {s : AppState} {oid : Nat} :
      Reachable s → Reachable (get_owner s oid).2
  | patchOwner {s : AppState} {now oid : Nat} {u : OwnerUpdate} :
      Reachable s → s.clock ≤ now → Reachable (patch_owner s now oid u).2
  | putOwner {s : AppState} {oid : Nat} :
      Reachable s → Reachable (put_owner_placeholder s oid).2
  | deleteOwner {s : AppState} {oid : Nat} :
      Reachable s → Reachable (delete_owner s oid).2
  | createPet {s : AppState} {now1 now2 : Nat} {p : PetCreate} :
      Reachable s → s.clock ≤ now1 → now1 ≤ now2 →
      Reachable (create_pet s now1 now2 p).2
  | listPets {s : AppState} :
      Reachable s → Reachable (list_pets s).2
  | getPet {s : AppState} {pid : Nat} :
      Reachable s → Reachable (get_pet s pid).2
  | patchPet {s : AppState} {now pid : Nat} {u : PetUpdate} :
      Reachable s → s.clock ≤ now → Reachable (patch_pet s now pid u).2
  | putPet {s : AppState} {pid : Nat} :
      Reachable s → Reachable (put_pet_placeholder s pid).2
  | deletePet {s : AppState} {pid : Nat} :
      Reachable s → Reachable (delete_pet s pid).2

/-- Timestamp sanity: every stored record satisfies
`created_at ≤ updated_at ≤ clock`. -/
abbrev TimeOk (s : AppState) : Prop :=
  (∀ kv ∈ s.OWNERS, kv.snd.created_at ≤ kv.snd.updated_at ∧
      kv.snd.updated_at ≤ s.clock) ∧
  (∀ kv ∈ s.PETS, kv.snd.created_at ≤ kv.snd.updated_at ∧
      kv.snd.updated_at ≤ s.clock)

/-- Key sanity: every record is stored under its own `id`. -/
abbrev KeysOk (s : AppState) : Prop :=
  (∀ kv ∈ s.OWNERS, kv.snd.id = kv.fst) ∧
  (∀ kv ∈ s.PETS, kv.snd.id = kv.fst)

/-- Id-supply sanity: everything issued so far is below the counter, and every
stored key was issued. -/
abbrev IdsOk (s : AppState) : Prop :=
  (∀ i ∈ s.issued, i < s.nextId) ∧
  (∀ kv ∈ s.OWNERS, kv.fst ∈ s.issued) ∧
  (∀ kv ∈ s.PETS, kv.fst ∈ s.issued)

/-- The maps hold each key at most once. -/
abbrev NodupKeys (s : AppState) : Prop :=
  (Dict.keys s.OWNERS).Nodup ∧ (Dict.keys s.PETS).Nodup

/-- The global state invariant. -/
abbrev Inv (s : AppState) : Prop :=
  TimeOk s ∧ KeysOk s ∧ IdsOk s ∧ NodupKeys s

/-- A concrete stored Owner used to exercise the theorems on explicit
inputs. -/
def sampleOwner : OwnerRead :=
  { id := 0
    first_name := "Ada"
    last_name := "Lovelace"
    phone := "+1-212-555-0199"
    email := some "ada@example.com"
    birth_date := some 10
    pets := []
    created_at := 1
    updated_at := 2 }

/-- A concrete stored Pet belonging to `sampleOwner`. -/
def samplePetA : PetRead :=
  { id := 1, owner_id := 0, name := "Boba", species := "Cat"
    created_at := 1, updated_at := 2 }

/-- A concrete stored Pet whose `owner_id` points at a different owner. -/
def samplePetB : PetRead :=
  { id := 2, owner_id := 3, name := "Rex", species := "Dog"
    created_at := 1, updated_at := 3 }

/-- A concrete state holding one Owner and two Pets (one of them not owned by
the stored Owner), satisfying the state invariant. -/
def sampleState : AppState :=
  { OWNERS := [(0, sampleOwner)]
    PETS := [(1, samplePetA), (2, samplePetB)]
    nextId := 4
    issued := [0, 1, 2]
    clock := 5 }

/-- A concrete Owner creation payload with an embedded client-supplied pets
list. -/
def adaWithPet : OwnerCreate :=
  { first_name := "Ada"
    last_name := "Lovelace"
    phone := "+1-212-555-0199"
    email := some "ada@example.com"
    birth_date := some 10
    pets := [{ id := 5, name := "Boba", species := "Cat" }] }

/-- The empty Owner partial update: no field supplied. -/
def noChange : OwnerUpdate := {}

/-- A concrete Pet creation payload referencing a missing Owner id. -/
def strayPet : PetCreate :=
  { owner_id := 9, name := "Ghost", species := "Cat" }

/-- A concrete Pet creation payload referencing `sampleOwner`. -/
def goodPet : PetCreate :=
  { owner_id := 0, name := "Mochi", species := "Dog" }

/-- The state after creating one Owner at time 0 from the initial state. -/
def stateA : AppState := (create_owner initialState 0 0 adaWithPet).2

/-- The state after additionally creating a Pet of that Owner at time 1. -/
def stateB : AppState := (create_pet stateA 1 1 goodPet).2

/-- The state after additionally renaming that Pet at time 2. -/
def stateC : AppState := (patch_pet stateB 2 1 { name := some "Pudding" }).2

namespace Dict

theorem mem_of_get_eq_some {α : Type} {d : Dict α} {k : Nat} {v : α}
    (h : get d k = some v) : (k, v) ∈ d := by
  induction d with
  | nil => simp [get] at h
  | cons kv d ih =>
    obtain ⟨k', v'⟩ := kv
    by_cases hk : k' = k
    · subst hk
      simp [get] at h
      subst h
      exact List.mem_cons_self _ _
    · simp only [get, if_neg hk] at h
      exact List.mem_cons_of_mem _ (ih h)

theorem mem_keys_of_mem {α : Type} {d : Dict α} {k : Nat} {v : α}
    (h : (k, v) ∈ d) : k ∈ keys d :=
  List.mem_map_of_mem Prod.fst h

theorem mem_set {α : Type} {d : Dict α} {k : Nat} {v : α} {kv : Nat × α}
    (h : kv ∈ set d k v) : kv = (k, v) ∨ kv ∈ d := by
  induction d with
  | nil =>
    simp [set] at h
    exact Or.inl h
  | cons kv' d ih =>
    obtain ⟨k', v'⟩ := kv'
    by_cases hk : k' = k
    · simp only [set, if_pos hk] at h
      rcases List.mem_cons.mp h with h | h
      · exact Or.inl h
      · exact Or.inr (List.mem_cons_of_mem _ h)
    · simp only [set, if_neg hk] at h
      rcases List.mem_cons.mp h with h | h
      · exact Or.inr (by simp [h])
      · rcases ih h with h' | h'
        · exact Or.inl h'
        · exact Or.inr (List.mem_cons_of_mem _ h')

theorem get_set_self {α : Type} (d : Dict α) (k : Nat) (v : α) :
    get (set d k v) k = some v := by
  induction d with
  | nil => simp [set, get]
  | cons kv d ih =>
    obtain ⟨k', v'⟩ := kv
    by_cases hk : k' = k
    · simp [set, if_pos hk, get]
    · simp [set, if_neg hk, get, hk, ih]

theorem mem_keys_set {α : Type} {d : Dict α} {k k' : Nat} {v : α}
    (h : k' ∈ keys (set d k v)) : k' = k ∨ k' ∈ keys d := by
  induction d with
  | nil =>
    simp only [set, keys, List.map_cons, List.map_nil, List.mem_singleton] at h
    exact Or.inl h
  | cons kv d ih =>
    obtain ⟨k0, v0⟩ := kv
    by_cases hk : k0 = k
    · simp only [set, if_pos hk, keys, List.map_cons, List.mem_cons] at h
      rcases h with h | h
      · exact Or.inl h
      · exact Or.inr (List.mem_cons_of_mem _ h)
    · simp only [set, if_neg hk, keys, List.map_cons, List.mem_cons] at h
      rcases h with h | h
      · exact Or.inr (by rw [h]; exact List.mem_cons_self _ _)
      · rcases ih h with h' | h'
        · exact Or.inl h'
        · exact Or.inr (List.mem_cons_of_mem _ h')

theorem nodup_keys_set {α : Type} {d : Dict α} (hd : (keys d).Nodup)
    (k : Nat) (v : α) : (keys (set d k v)).Nodup := by
  induction d with
  | nil => simp [set, keys]
  | cons kv d ih =>
    obtain ⟨k0, v0⟩ := kv
    simp only [keys, List.map_cons, List.nodup_cons] at hd
    by_cases hk : k0 = k
    · subst hk
      have hset : set ((k0, v0) :: d) k0 v = (k0, v) :: d := by simp [set]
      rw [hset]
      simp only [keys, List.map_cons, List.nodup_cons]
      exact ⟨hd.1, hd.2⟩
    · simp only [set, if_neg hk, keys, List.map_cons, List.nodup_cons]
      refine ⟨?_, ih hd.2⟩
      intro hmem
      rcases mem_keys_set hmem with h | h
      · exact hk h
      · exact hd.1 h

theorem get_eq_none {α : Type} {d : Dict α} {k : Nat}
    (h : ∀ kv ∈ d, kv.fst ≠ k) : get d k = none := by
  induction d with
  | nil => rfl
  | cons kv d ih =>
    obtain ⟨k', v'⟩ := kv
    have hk : k' ≠ k := h (k', v') (List.mem_cons_self _ _)
    simp only [get, if_neg hk]
    exact ih (fun kv hkv => h kv (List.mem_cons_of_mem _ hkv))

theorem get_of_mem_nodup {α : Type} {d : Dict α} (hd : (keys d).Nodup)
    {k : Nat} {v : α} (h : (k, v) ∈ d) : get d k = some v := by
  induction d with
  | nil => simp at h
  | cons kv d ih =>
    obtain ⟨k', v'⟩ := kv
    simp only [keys, List.map_cons, List.nodup_cons] at hd
    rcases List.mem_cons.mp h with h | h
    · have h1 : k = k' := congrArg Prod.fst h
      have h2 : v = v' := congrArg Prod.snd h
      subst h1
      subst h2
      simp [get]
    · by_cases hk : k' = k
      · subst hk
        exact absurd (mem_keys_of_mem h) hd.1
      · simp only [get, if_neg hk]
        exact ih hd.2 h

theorem value_eq_of_mem_nodup {α : Type} {d : Dict α} (hd : (keys d).Nodup)
    {k : Nat} {v w : α} (h1 : (k, v) ∈ d) (h2 : (k, w) ∈ d) : v = w := by
  have e1 := get_of_mem_nodup hd h1
  have e2 := get_of_mem_nodup hd h2
  rw [e1] at e2
  exact Option.some.inj e2

theorem nodup_keys_filter {α : Type} {d : Dict α} (hd : (keys d).Nodup)
    (p : Nat × α → Bool) : (keys (d.filter p)).Nodup :=
  List.Nodup.sublist (List.Sublist.map Prod.fst (List.filter_sublist d)) hd

theorem nodup_keys_erase {α : Type} {d : Dict α} (hd : (keys d).Nodup)
    (k : Nat) : (keys (erase d k)).Nodup :=
  nodup_keys_filter hd _

theorem mem_of_mem_erase {α : Type} {d : Dict α} {k : Nat} {kv : Nat × α}
    (h : kv ∈ erase d k) : kv ∈ d :=
  (List.mem_filter.mp h).1

theorem get_erase_self {α : Type} (d : Dict α) (k : Nat) :
    get (erase d k) k = none := by
  refine get_eq_none ?_
  intro kv hkv
  have := (List.mem_filter.mp hkv).2
  simpa using this

end Dict

theorem getD_req_ne_none {x : Option (Option String)} (old : String)
    (h : x ≠ some none) : ∃ v, x.getD (some old) = some v := by
  cases x with
  | none => exact ⟨old, rfl⟩
  | some y =>
    cases y with
    | none => exact absurd rfl h
    | some v => exact ⟨v, rfl⟩

theorem applyOwnerUpdate_eq_none (o : OwnerRead) (u : OwnerUpdate) (now : Nat)
    (h : u.first_name = some none ∨ u.last_name = some none ∨
      u.phone = some none) :
    applyOwnerUpdate o u now = none := by
  unfold applyOwnerUpdate
  rcases h with h | h | h
  · rw [h]
    rfl
  · rw [h]
    cases u.first_name.getD (some o.first_name) <;> rfl
  · rw [h]
    cases u.first_name.getD (some o.first_name) with
    | none => rfl
    | some fn => cases u.last_name.getD (some o.last_name) <;> rfl

theorem applyOwnerUpdate_isSome (o : OwnerRead) (u : OwnerUpdate) (now : Nat)
    (h1 : u.first_name ≠ some none) (h2 : u.last_name ≠ some none)
    (h3 : u.phone ≠ some none) :
    ∃ m, applyOwnerUpdate o u now = some m := by
  obtain ⟨fn, hfn⟩ := getD_req_ne_none o.first_name h1
  obtain ⟨ln, hln⟩ := getD_req_ne_none o.last_name h2
  obtain ⟨ph, hph⟩ := getD_req_ne_none o.phone h3
  have happ : applyOwnerUpdate o u now =
      some { o with
        first_name := fn
        last_name := ln
        phone := ph
        email := u.email.getD o.email
        birth_date := u.birth_date.getD o.birth_date
        updated_at := now } := by
    unfold applyOwnerUpdate
    rw [hfn, hln, hph]
  exact ⟨_, happ⟩

theorem applyOwnerUpdate_some {o : OwnerRead} {u : OwnerUpdate} {now : Nat}
    {m : OwnerRead} (h : applyOwnerUpdate o u now = some m) :
    m.id = o.id ∧ m.created_at = o.created_at ∧ m.updated_at = now ∧
    m.pets = o.pets ∧
    some m.first_name = u.first_name.getD (some o.first_name) ∧
    some m.last_name = u.last_name.getD (some o.last_name) ∧
    some m.phone = u.phone.getD (some o.phone) ∧
    m.email = u.email.getD o.email ∧
    m.birth_date = u.birth_date.getD o.birth_date := by
  unfold applyOwnerUpdate at h
  cases hfn : u.first_name.getD (some o.first_name) with
  | none =>
    rw [hfn] at h
    exact absurd h (by simp)
  | some fn =>
    rw [hfn] at h
    cases hln : u.last_name.getD (some o.last_name) with
    | none =>
      rw [hln] at h
      exact absurd h (by simp)
    | some ln =>
      rw [hln] at h
      cases hph : u.phone.getD (some o.phone) with
      | none =>
        rw [hph] at h
        exact absurd h (by simp)
      | some ph =>
        rw [hph] at h
        obtain rfl := Option.some.inj h
        exact ⟨rfl, rfl, rfl, rfl, rfl, rfl, rfl, rfl, rfl⟩

theorem inv_create_owner {s : AppState} {now1 now2 : Nat} {p : OwnerCreate}
    (h : Inv s) (hc : s.clock ≤ now1) (h12 : now1 ≤ now2) :
    Inv (create_owner s now1 now2 p).2 := by
  obtain ⟨⟨hto, htp⟩, ⟨hko, hkp⟩, ⟨hi1, hi2, hi3⟩, hn1, hn2⟩ := h
  simp only [create_owner]
  refine ⟨⟨?_, ?_⟩, ⟨?_, ?_⟩, ⟨?_, ?_, ?_⟩, ?_, ?_⟩
  · intro kv hkv
    rcases Dict.mem_set hkv with rfl | hkv'
    · exact ⟨h12, Nat.le_refl _⟩
    · have := hto kv hkv'
      exact ⟨this.1, Nat.le_trans this.2 (Nat.le_trans hc h12)⟩
  · intro kv hkv
    have := htp kv hkv
    exact ⟨this.1, Nat.le_trans this.2 (Nat.le_trans hc h12)⟩
  · intro kv hkv
    rcases Dict.mem_set hkv with rfl | hkv'
    · rfl
    · exact hko kv hkv'
  · exact hkp
  · intro i hi
    show i < s.nextId + 1
    rcases List.mem_append.mp hi with hi | hi
    · have := hi1 i hi
      omega
    · have := List.mem_singleton.mp hi
      omega
  · intro kv hkv
    rcases Dict.mem_set hkv with rfl | hkv'
    · exact List.mem_append_right _ (List.mem_singleton.mpr rfl)
    · exact List.mem_append_left _ (hi2 kv hkv')
  · intro kv hkv
    exact List.mem_append_left _ (hi3 kv hkv)
  · exact Dict.nodup_keys_set hn1 _ _
  · exact hn2

theorem inv_list_owners {s : AppState} (h : Inv s) : Inv (list_owners s).2 := by
  obtain ⟨⟨hto, htp⟩, ⟨hko, hkp⟩, ⟨hi1, hi2, hi3⟩, hn1, hn2⟩ := h
  simp only [list_owners]
  refine ⟨⟨?_, htp⟩, ⟨?_, hkp⟩, ⟨hi1, ?_, hi3⟩, ?_, hn2⟩
  · intro kv hkv
    rcases List.mem_map.mp hkv with ⟨kv0, hkv0, rfl⟩
    exact hto kv0 hkv0
  · intro kv hkv
    rcases List.mem_map.mp hkv with ⟨kv0, hkv0, rfl⟩
    exact hko kv0 hkv0
  · intro kv hkv
    rcases List.mem_map.mp hkv with ⟨kv0, hkv0, rfl⟩
    exact hi2 kv0 hkv0
  · have hkeys : Dict.keys (s.OWNERS.map fun kv => (kv.fst, refreshPets s kv.snd)) =
        Dict.keys s.OWNERS := by
      simp [Dict.keys, List.map_map, Function.comp]
    rw [hkeys]
    exact hn1

theorem inv_get_owner {s : AppState} {oid : Nat} (h : Inv s) :
    Inv (get_owner s oid).2 := by
  cases hget : Dict.get s.OWNERS oid with
  | none => simpa [get_owner, hget] using h
  | some owner =>
    obtain ⟨⟨hto, htp⟩, ⟨hko, hkp⟩, ⟨hi1, hi2, hi3⟩, hn1, hn2⟩ := h
    have hmem : (oid, owner) ∈ s.OWNERS := Dict.mem_of_get_eq_some hget
    simp only [get_owner, hget]
    refine ⟨⟨?_, htp⟩, ⟨?_, hkp⟩, ⟨hi1, ?_, hi3⟩, ?_, hn2⟩
    · intro kv hkv
      rcases Dict.mem_set hkv with rfl | hkv'
      · exact hto (oid, owner) hmem
      · exact hto kv hkv'
    · intro kv hkv
      rcases Dict.mem_set hkv with rfl | hkv'
      · exact hko (oid, owner) hmem
      · exact hko kv hkv'
    · intro kv hkv
      rcases Dict.mem_set hkv with rfl | hkv'
      · exact hi2 (oid, owner) hmem
      · exact hi2 kv hkv'
    · exact Dict.nodup_keys_set hn1 _ _

theorem inv_patch_owner {s : AppState} {now oid : Nat} {u : OwnerUpdate}
    (h : Inv s) (hc : s.clock ≤ now) : Inv (patch_owner s now oid u).2 := by
  cases hget : Dict.get s.OWNERS oid with
  | none => simpa [patch_owner, hget] using h
  | some owner =>
    cases happ : applyOwnerUpdate owner u now with
    | none => simpa [patch_owner, hget, happ] using h
    | some merged =>
      obtain ⟨hmid, hmcr, hmup, _⟩ := applyOwnerUpdate_some happ
      obtain ⟨⟨hto, htp⟩, ⟨hko, hkp⟩, ⟨hi1, hi2, hi3⟩, hn1, hn2⟩ := h
      have hmem : (oid, owner) ∈ s.OWNERS := Dict.mem_of_get_eq_some hget
      have hbounds := hto (oid, owner) hmem
      simp only [patch_owner, hget, happ]
      refine ⟨⟨?_, ?_⟩, ⟨?_, hkp⟩, ⟨hi1, ?_, hi3⟩, ?_, hn2⟩
      · intro kv hkv
        rcases Dict.mem_set hkv with rfl | hkv'
        · refine ⟨?_, ?_⟩
          · show merged.created_at ≤ merged.updated_at
            rw [hmcr, hmup]
            exact Nat.le_trans hbounds.1 (Nat.le_trans hbounds.2 hc)
          · show merged.updated_at ≤ now
            rw [hmup]
        · have := hto kv hkv'
          exact ⟨this.1, Nat.le_trans this.2 hc⟩
      · intro kv hkv
        have := htp kv hkv
        exact ⟨this.1, Nat.le_trans this.2 hc⟩
      · intro kv hkv
        rcases Dict.mem_set hkv with rfl | hkv'
        · show merged.id = oid
          rw [hmid]
          exact hko (oid, owner) hmem
        · exact hko kv hkv'
      · intro kv hkv
        rcases Dict.mem_set hkv with rfl | hkv'
        · exact hi2 (oid, owner) hmem
        · exact hi2 kv hkv'
      · exact Dict.nodup_keys_set hn1 _ _

theorem inv_put_owner {s : AppState} {oid : Nat} (h : Inv s) :
    Inv (put_owner_placeholder s oid).2 := h

theorem inv_delete_owner {s : AppState} {oid : Nat} (h : Inv s) :
    Inv (delete_owner s oid).2 := by
  obtain ⟨⟨hto, htp⟩, ⟨hko, hkp⟩, ⟨hi1, hi2, hi3⟩, hn1, hn2⟩ := h
  by_cases hk : Dict.hasKey s.OWNERS oid = true
  · simp only [delete_owner, if_pos hk]
    refine ⟨⟨?_, ?_⟩, ⟨?_, ?_⟩, ⟨hi1, ?_, ?_⟩, ?_, ?_⟩
    · intro kv hkv
      exact hto kv (Dict.mem_of_mem_erase hkv)
    · intro kv hkv
      exact htp kv (List.mem_filter.mp hkv).1
    · intro kv hkv
      exact hko kv (Dict.mem_of_mem_erase hkv)
    · intro kv hkv
      exact hkp kv (List.mem_filter.mp hkv).1
    · intro kv hkv
      exact hi2 kv (Dict.mem_of_mem_erase hkv)
    · intro kv hkv
      exact hi3 kv (List.mem_filter.mp hkv).1
    · exact Dict.nodup_keys_erase hn1 _
    · exact Dict.nodup_keys_filter hn2 _
  · simp only [delete_owner, if_neg hk]
    exact ⟨⟨hto, htp⟩, ⟨hko, hkp⟩, ⟨hi1, hi2, hi3⟩, hn1, hn2⟩

theorem inv_create_pet {s : AppState} {now1 now2 : Nat} {p : PetCreate}
    (h : Inv s) (hc : s.clock ≤ now1) (h12 : now1 ≤ now2) :
    Inv (create_pet s now1 now2 p).2 := by
  obtain ⟨⟨hto, htp⟩, ⟨hko, hkp⟩, ⟨hi1, hi2, hi3⟩, hn1, hn2⟩ := h
  by_cases hk : Dict.hasKey s.OWNERS p.owner_id = true
  · simp only [create_pet, if_pos hk]
    refine ⟨⟨?_, ?_⟩, ⟨hko, ?_⟩, ⟨?_, ?_, ?_⟩, hn1, ?_⟩
    · intro kv hkv
      have := hto kv hkv
      exact ⟨this.1, Nat.le_trans this.2 (Nat.le_trans hc h12)⟩
    · intro kv hkv
      rcases Dict.mem_set hkv with rfl | hkv'
      · exact ⟨h12, Nat.le_refl _⟩
      · have := htp kv hkv'
        exact ⟨this.1, Nat.le_trans this.2 (Nat.le_trans hc h12)⟩
    · intro kv hkv
      rcases Dict.mem_set hkv with rfl | hkv'
      · rfl
      · exact hkp kv hkv'
    · intro i hi
      show i < s.nextId + 1
      rcases List.mem_append.mp hi with hi | hi
      · have := hi1 i hi
        omega
      · have := List.mem_singleton.mp hi
        omega
    · intro kv hkv
      exact List.mem_append_left _ (hi2 kv hkv)
    · intro kv hkv
      rcases Dict.mem_set hkv with rfl | hkv'
      · exact List.mem_append_right _ (List.mem_singleton.mpr rfl)
      · exact List.mem_append_left _ (hi3 kv hkv')
    · exact Dict.nodup_keys_set hn2 _ _
  · simp only [create_pet, if_neg hk]
    exact ⟨⟨hto, htp⟩, ⟨hko, hkp⟩, ⟨hi1, hi2, hi3⟩, hn1, hn2⟩

theorem inv_list_pets {s : AppState} (h : Inv s) : Inv (list_pets s).2 := h

theorem inv_get_pet {s : AppState} {pid : Nat} (h : Inv s) :
    Inv (get_pet s pid).2 := by
  cases hget : Dict.get s.PETS pid with
  | none => simpa [get_pet, hget] using h
  | some pet => simpa [get_pet, hget] using h

theorem inv_patch_pet {s : AppState} {now pid : Nat} {u : PetUpdate}
    (h : Inv s) (hc : s.clock ≤ now) : Inv (patch_pet s now pid u).2 := by
  cases hget : Dict.get s.PETS pid with
  | none => simpa [patch_pet, hget] using h
  | some pet =>
    obtain ⟨⟨hto, htp⟩, ⟨hko, hkp⟩, ⟨hi1, hi2, hi3⟩, hn1, hn2⟩ := h
    have hmem : (pid, pet) ∈ s.PETS := Dict.mem_of_get_eq_some hget
    have hbounds := htp (pid, pet) hmem
    simp only [patch_pet, hget]
    refine ⟨⟨?_, ?_⟩, ⟨hko, ?_⟩, ⟨hi1, hi2, ?_⟩, hn1, ?_⟩
    · intro kv hkv
      have := hto kv hkv
      exact ⟨this.1, Nat.le_trans this.2 hc⟩
    · intro kv hkv
      rcases Dict.mem_set hkv with rfl | hkv'
      · exact ⟨Nat.le_trans hbounds.1 (Nat.le_trans hbounds.2 hc), Nat.le_refl _⟩
      · have := htp kv hkv'
        exact ⟨this.1, Nat.le_trans this.2 hc⟩
    · intro kv hkv
      rcases Dict.mem_set hkv with rfl | hkv'
      · exact hkp (pid, pet) hmem
      · exact hkp kv hkv'
    · intro kv hkv
      rcases Dict.mem_set hkv with rfl | hkv'
      · exact hi3 (pid, pet) hmem
      · exact hi3 kv hkv'
    · exact Dict.nodup_keys_set hn2 _ _

theorem inv_put_pet {s : AppState} {pid : Nat} (h : Inv s) :
    Inv (put_pet_placeholder s pid).2 := h

theorem inv_delete_pet {s : AppState} {pid : Nat} (h : Inv s) :
    Inv (delete_pet s pid).2 := by
  obtain ⟨⟨hto, htp⟩, ⟨hko, hkp⟩, ⟨hi1, hi2, hi3⟩, hn1, hn2⟩ := h
  by_cases hk : Dict.hasKey s.PETS pid = true
  · simp only [delete_pet, if_pos hk]
    refine ⟨⟨hto, ?_⟩, ⟨hko, ?_⟩, ⟨hi1, hi2, ?_⟩, hn1, ?_⟩
    · intro kv hkv
      exact htp kv (Dict.mem_of_mem_erase hkv)
    · intro kv hkv
      exact hkp kv (Dict.mem_of_mem_erase hkv)
    · intro kv hkv
      exact hi3 kv (Dict.mem_of_mem_erase hkv)
    · exact Dict.nodup_keys_erase hn2 _
  · simp only [delete_pet, if_neg hk]
    exact ⟨⟨hto, htp⟩, ⟨hko, hkp⟩, ⟨hi1, hi2, hi3⟩, hn1, hn2⟩

theorem inv_initialState : Inv initialState := by
  refine ⟨⟨?_, ?_⟩, ⟨?_, ?_⟩, ⟨?_, ?_, ?_⟩, ?_, ?_⟩ <;>
    simp [initialState, Dict.keys]

/-- Every reachable state of the application satisfies the global state
invariant. -/
theorem reachable_inv {s : AppState} (h : Reachable s) : Inv s := by
  induction h with
  | init => exact inv_initialState
  | createOwner _ hc h12 ih => exact inv_create_owner ih hc h12
  | listOwners _ ih => exact inv_list_owners ih
  | getOwner _ ih => exact inv_get_owner ih
  | patchOwner _ hc ih => exact inv_patch_owner ih hc
  | putOwner _ ih => exact inv_put_owner ih
  | deleteOwner _ ih => exact inv_delete_owner ih
  | createPet _ hc h12 ih => exact inv_create_pet ih hc h12
  | listPets _ ih => exact inv_list_pets ih
  | getPet _ ih => exact inv_get_pet ih
  | patchPet _ hc ih => exact inv_patch_pet ih hc
  | putPet _ ih => exact inv_put_pet ih
  | deletePet _ ih => exact inv_delete_pet ih

/-- Claim C8: for every state, every request body and every owner or pet id
(present in the maps or not), PUT /owners/{id} and PUT /pets/{id} fail with
status 501 ("Not implemented") and leave the state, both storage maps
included, unchanged. -/
theorem C8_put_always_501 (s : AppState) (oid pid : Nat) :
    put_owner_placeholder s oid = (Except.error ⟨501, "Not implemented"⟩, s) ∧
    put_pet_placeholder s pid = (Except.error ⟨501, "Not implemented"⟩, s) :=
  ⟨rfl, rfl⟩

/-- Claim C10: the Owner creation payload carries a client-supplied pets list,
and for every state and every such payload POST /owners returns and stores an
Owner whose pets field is exactly that list; this holds with no condition on
the Pet map, so the entries are neither validated against it nor recomputed
from it. -/
theorem C10_create_owner_pets_passthrough (s : AppState) (now1 now2 : Nat)
    (payload : OwnerCreate) :
    (create_owner s now1 now2 payload).1.pets = payload.pets ∧
    Dict.get (create_owner s now1 now2 payload).2.OWNERS
        (create_owner s now1 now2 payload).1.id =
      some (create_owner s now1 now2 payload).1 :=
  ⟨rfl, Dict.get_set_self _ _ _⟩

/-- Claim C5: the pets field of every Owner returned by GET /owners/{id} or by
GET /owners equals the summaries of exactly those Pets in the live Pet map
whose owner_id matches that Owner id at call time, whatever pets value the
stored record held before the call. -/
theorem C5_owner_pets_live (s : AppState) (oid : Nat) :
    (∀ o, (get_owner s oid).1 = Except.ok o →
      o.pets = ((Dict.values s.PETS).filter
          (fun p => p.owner_id == o.id)).map PetRead.toBase) ∧
    (∀ o, o ∈ (list_owners s).1 →
      o.pets = ((Dict.values s.PETS).filter
          (fun p => p.owner_id == o.id)).map PetRead.toBase) := by
  constructor
  · intro o ho
    cases hget : Dict.get s.OWNERS oid with
    | none => simp [get_owner, hget] at ho
    | some w =>
      simp only [get_owner, hget, Except.ok.injEq] at ho
      subst ho
      rfl
  · intro o ho
    simp only [list_owners, Dict.values] at ho
    rcases List.mem_map.mp ho with ⟨kv, hkv, rfl⟩
    rcases List.mem_map.mp hkv with ⟨kv0, hkv0, rfl⟩
    rfl

/-- Claim C5 exercised on a concrete input: in `sampleState` the stored Owner
record holds a stale empty pets list, and GET /owners/0 reports the one live
Pet instead. -/
theorem C5_owner_pets_live_witness :
    (get_owner sampleState 0).1 = Except.ok (refreshPets sampleState sampleOwner) ∧
    (refreshPets sampleState sampleOwner).pets =
      ((Dict.values sampleState.PETS).filter
          (fun p => p.owner_id == (refreshPets sampleState sampleOwner).id)).map
        PetRead.toBase :=
  ⟨rfl, (C5_owner_pets_live sampleState 0).1 _ rfl⟩

/-- Claim C2: POST /pets with an owner_id that is not a key of the Owner map
fails with 400 "owner_id does not exist" and leaves the whole state, both
maps included, unchanged; with the owner_id present no error is raised and
the new Pet is stored. -/
theorem C2_create_pet_referential_integrity (s : AppState) (now1 now2 : Nat)
    (payload : PetCreate) :
    (Dict.hasKey s.OWNERS payload.owner_id = false →
      (create_pet s now1 now2 payload).1 =
        Except.error ⟨400, "owner_id does not exist"⟩ ∧
      (create_pet s now1 now2 payload).2 = s) ∧
    (Dict.hasKey s.OWNERS payload.owner_id = true →
      ∃ pet, (create_pet s now1 now2 payload).1 = Except.ok pet ∧
        Dict.get (create_pet s now1 now2 payload).2.PETS pet.id = some pet) := by
  constructor
  · intro hk
    have hk' : ¬ Dict.hasKey s.OWNERS payload.owner_id = true := by
      simp [hk]
    simp [create_pet, if_neg hk']
  · intro hk
    simp only [create_pet, if_pos hk]
    exact ⟨_, rfl, Dict.get_set_self _ _ _⟩

/-- Claim C2 exercised on concrete inputs: in `sampleState` the payload
`strayPet` names the missing owner 9 and is rejected with no state change,
while `goodPet` names the stored owner 0 and is stored. -/
theorem C2_create_pet_referential_integrity_witness :
    Dict.hasKey sampleState.OWNERS strayPet.owner_id = false ∧
    ((create_pet sampleState 6 6 strayPet).1 =
        Except.error ⟨400, "owner_id does not exist"⟩ ∧
      (create_pet sampleState 6 6 strayPet).2 = sampleState) ∧
    Dict.hasKey sampleState.OWNERS goodPet.owner_id = true ∧
    (∃ pet, (create_pet sampleState 6 6 goodPet).1 = Except.ok pet ∧
      Dict.get (create_pet sampleState 6 6 goodPet).2.PETS pet.id = some pet) :=
  ⟨by decide,
    (C2_create_pet_referential_integrity sampleState 6 6 strayPet).1 (by decide),
    by decide,
    (C2_create_pet_referential_integrity sampleState 6 6 goodPet).2 (by decide)⟩

/-- Claim C7: PATCH /pets/{id} on a stored Pet, with a payload that sets
owner_id to a value absent from the Owner map, raises no error and stores the
Pet with the dangling owner_id reference. -/
theorem C7_patch_pet_allows_dangling (s : AppState) (now pid k : Nat)
    (u : PetUpdate) (p : PetRead)
    (hu : u.owner_id = some k)
    (hk : Dict.hasKey s.OWNERS k = false)
    (hp : Dict.get s.PETS pid = some p) :
    ∃ p2, (patch_pet s now pid u).1 = Except.ok p2 ∧ p2.owner_id = k ∧
      Dict.get (patch_pet s now pid u).2.PETS pid = some p2 := by
  simp only [patch_pet, hp]
  refine ⟨_, rfl, ?_, Dict.get_set_self _ _ _⟩
  simp [applyPetUpdate, hu]

/-- Claim C7 exercised on a concrete input: patching the stored Pet 1 of
`sampleState` to the missing owner 9 succeeds and stores the dangling
reference. -/
theorem C7_patch_pet_allows_dangling_witness :
    Dict.hasKey sampleState.OWNERS 9 = false ∧
    Dict.get sampleState.PETS 1 = some samplePetA ∧
    (∃ p2, (patch_pet sampleState 6 1 { owner_id := some 9 }).1 =
        Except.ok p2 ∧ p2.owner_id = 9 ∧
      Dict.get (patch_pet sampleState 6 1
          { owner_id := some 9 }).2.PETS 1 = some p2) :=
  ⟨by decide, by decide,
    C7_patch_pet_allows_dangling sampleState 6 1 9 { owner_id := some 9 }
      samplePetA rfl (by decide) (by decide)⟩

/-- Claim C4 as stated is false on the code: the created_at and updated_at
default factories are two separate datetime.utcnow() calls at microsecond
precision, so the returned record need not satisfy created_at == updated_at.
Concretely, creating an Owner from the initial state with the two factory
readings 0 and 1 (a legitimately non-decreasing clock) returns a record whose
two timestamps differ. -/
theorem C4_counterexample :
    Reachable initialState ∧ initialState.clock ≤ 0 ∧ (0 : Nat) ≤ 1 ∧
    (create_owner initialState 0 1 adaWithPet).1.created_at ≠
      (create_owner initialState 0 1 adaWithPet).1.updated_at :=
  ⟨Reachable.init, Nat.le_refl 0, by decide, by decide⟩

/-- Claim C4 amended: in every reachable state (after every prior sequence of
operations), POST /owners returns a record whose freshly generated id differs
from every id the supply has ever issued; its timestamps satisfy
created_at ≤ updated_at, and created_at = updated_at holds exactly when the
two timestamp default-factory calls read the same clock value — which the
code does not guarantee, as they are separate utcnow() calls. -/
theorem C4_create_owner_fresh_id (s : AppState) (now1 now2 : Nat)
    (payload : OwnerCreate) (h : Reachable s) (h12 : now1 ≤ now2) :
    (create_owner s now1 now2 payload).1.id ∉ s.issued ∧
    (create_owner s now1 now2 payload).1.created_at ≤
      (create_owner s now1 now2 payload).1.updated_at ∧
    (now1 = now2 →
      (create_owner s now1 now2 payload).1.created_at =
        (create_owner s now1 now2 payload).1.updated_at) := by
  obtain ⟨_, _, ⟨hi1, _, _⟩, _⟩ := reachable_inv h
  refine ⟨?_, h12, fun he => he⟩
  intro hmem
  have h2 : s.nextId < s.nextId := hi1 _ hmem
  exact Nat.lt_irrefl _ h2

/-- Claim C4 (amended) exercised on a concrete input: creating a second Owner
in `stateA` (reached by one prior create) yields an id outside the issue log
and ordered timestamps, equal when both factory readings coincide. -/
theorem C4_create_owner_fresh_id_witness :
    Reachable stateA ∧ (1 : Nat) ≤ 1 ∧
    ((create_owner stateA 1 1 adaWithPet).1.id ∉ stateA.issued ∧
      (create_owner stateA 1 1 adaWithPet).1.created_at ≤
        (create_owner stateA 1 1 adaWithPet).1.updated_at ∧
      ((1 : Nat) = 1 →
        (create_owner stateA 1 1 adaWithPet).1.created_at =
          (create_owner stateA 1 1 adaWithPet).1.updated_at)) :=
  ⟨Reachable.createOwner Reachable.init (Nat.le_refl 0) (Nat.le_refl 0),
    Nat.le_refl 1,
    C4_create_owner_fresh_id stateA 1 1 adaWithPet
      (Reachable.createOwner Reachable.init (Nat.le_refl 0) (Nat.le_refl 0))
      (Nat.le_refl 1)⟩

/-- Claim C6: in every reachable state (reachability carries the assumption
that the clock is non-decreasing across operations), every stored Owner and
every stored Pet satisfies updated_at ≥ created_at. -/
theorem C6_updated_at_ge_created_at (s : AppState) (h : Reachable s) :
    (∀ kv ∈ s.OWNERS, kv.snd.created_at ≤ kv.snd.updated_at) ∧
    (∀ kv ∈ s.PETS, kv.snd.created_at ≤ kv.snd.updated_at) := by
  obtain ⟨⟨hto, htp⟩, _⟩ := reachable_inv h
  exact ⟨fun kv hkv => (hto kv hkv).1, fun kv hkv => (htp kv hkv).1⟩

/-- Claim C6 exercised on a concrete input: after a create, a dependent
create and a patch (`stateC`), every stored record still satisfies
updated_at ≥ created_at. -/
theorem C6_updated_at_ge_created_at_witness :
    Reachable stateC ∧
    ((∀ kv ∈ stateC.OWNERS, kv.snd.created_at ≤ kv.snd.updated_at) ∧
      (∀ kv ∈ stateC.PETS, kv.snd.created_at ≤ kv.snd.updated_at)) :=
  ⟨Reachable.patchPet
      (Reachable.createPet
        (Reachable.createOwner Reachable.init (Nat.le_refl 0) (Nat.le_refl 0))
        (by decide) (by decide))
      (by decide),
    C6_updated_at_ge_created_at stateC
      (Reachable.patchPet
        (Reachable.createPet
          (Reachable.createOwner Reachable.init (Nat.le_refl 0) (Nat.le_refl 0))
          (by decide) (by decide))
        (by decide))⟩

/-- Claim C9: each mutating operation (create, patch and delete, on Owners
and on Pets) preserves the invariant that every record in either storage map
is stored under its own id as key. -/
theorem C9_storage_key_matches_id (s : AppState) (now1 now2 now oid pid : Nat)
    (oc : OwnerCreate) (uo : OwnerUpdate) (pc : PetCreate) (up : PetUpdate)
    (h : KeysOk s) :
    KeysOk (create_owner s now1 now2 oc).2 ∧
    KeysOk (patch_owner s now oid uo).2 ∧
    KeysOk (delete_owner s oid).2 ∧ KeysOk (create_pet s now1 now2 pc).2 ∧
    KeysOk (patch_pet s now pid up).2 ∧ KeysOk (delete_pet s pid).2 := by
  obtain ⟨hko, hkp⟩ := h
  refine ⟨⟨?_, hkp⟩, ?_, ?_, ?_, ?_, ?_⟩
  · intro kv hkv
    rcases Dict.mem_set hkv with rfl | hkv'
    · rfl
    · exact hko kv hkv'
  · cases hget : Dict.get s.OWNERS oid with
    | none =>
      have hstate : (patch_owner s now oid uo).2 = s := by
        simp [patch_owner, hget]
      rw [hstate]
      exact ⟨hko, hkp⟩
    | some owner =>
      cases happ : applyOwnerUpdate owner uo now with
      | none =>
        have hstate : (patch_owner s now oid uo).2 = s := by
          simp [patch_owner, hget, happ]
        rw [hstate]
        exact ⟨hko, hkp⟩
      | some merged =>
        obtain ⟨hmid, _⟩ := applyOwnerUpdate_some happ
        have hmem : (oid, owner) ∈ s.OWNERS := Dict.mem_of_get_eq_some hget
        simp only [patch_owner, hget, happ]
        refine ⟨?_, hkp⟩
        intro kv hkv
        rcases Dict.mem_set hkv with rfl | hkv'
        · show merged.id = oid
          rw [hmid]
          exact hko (oid, owner) hmem
        · exact hko kv hkv'
  · by_cases hk : Dict.hasKey s.OWNERS oid = true
    · simp only [delete_owner, if_pos hk]
      refine ⟨?_, ?_⟩
      · intro kv hkv
        exact hko kv (Dict.mem_of_mem_erase hkv)
      · intro kv hkv
        exact hkp kv (List.mem_filter.mp hkv).1
    · simp only [delete_owner, if_neg hk]
      exact ⟨hko, hkp⟩
  · by_cases hk : Dict.hasKey s.OWNERS pc.owner_id = true
    · simp only [create_pet, if_pos hk]
      refine ⟨hko, ?_⟩
      intro kv hkv
      rcases Dict.mem_set hkv with rfl | hkv'
      · rfl
      · exact hkp kv hkv'
    · simp only [create_pet, if_neg hk]
      exact ⟨hko, hkp⟩
  · cases hget : Dict.get s.PETS pid with
    | none =>
      have hstate : (patch_pet s now pid up).2 = s := by
        simp [patch_pet, hget]
      rw [hstate]
      exact ⟨hko, hkp⟩
    | some pet =>
      have hmem : (pid, pet) ∈ s.PETS := Dict.mem_of_get_eq_some hget
      simp only [patch_pet, hget]
      refine ⟨hko, ?_⟩
      intro kv hkv
      rcases Dict.mem_set hkv with rfl | hkv'
      · exact hkp (pid, pet) hmem
      · exact hkp kv hkv'
  · by_cases hk : Dict.hasKey s.PETS pid = true
    · simp only [delete_pet, if_pos hk]
      refine ⟨hko, ?_⟩
      intro kv hkv
      exact hkp kv (Dict.mem_of_mem_erase hkv)
    · simp only [delete_pet, if_neg hk]
      exact ⟨hko, hkp⟩

/-- Claim C9 exercised on a concrete input: all six mutating operations on
`sampleState` keep every record stored under its own id. -/
theorem C9_storage_key_matches_id_witness :
    KeysOk sampleState ∧
    (KeysOk (create_owner sampleState 6 6 adaWithPet).2 ∧
      KeysOk (patch_owner sampleState 6 0 noChange).2 ∧
      KeysOk (delete_owner sampleState 0).2 ∧
      KeysOk (create_pet sampleState 6 6 goodPet).2 ∧
      KeysOk (patch_pet sampleState 6 1 { owner_id := some 9 }).2 ∧
      KeysOk (delete_pet sampleState 1).2) :=
  ⟨by decide,
    C9_storage_key_matches_id sampleState 6 6 6 0 1 adaWithPet noChange goodPet
      { owner_id := some 9 } (by decide)⟩

/-- Claim C1: when owner oid is a key of the Owner map, DELETE /owners/{oid}
succeeds, removes that owner, removes every Pet whose owner_id equals oid in
the same operation (so a subsequent GET /pets/{pid} on any such Pet answers
404 "Pet not found"), and keeps every Pet whose owner_id differs, unchanged.
The Pet map is assumed to hold each key once, as every reachable state
does. -/
theorem C1_delete_owner_cascade (s : AppState) (oid : Nat)
    (hnd : (Dict.keys s.PETS).Nodup)
    (hk : Dict.hasKey s.OWNERS oid = true) :
    (delete_owner s oid).1 = Except.ok () ∧
    Dict.get (delete_owner s oid).2.OWNERS oid = none ∧
    (∀ pid p, (pid, p) ∈ s.PETS → p.owner_id = oid →
      (get_pet (delete_owner s oid).2 pid).1 =
        Except.error ⟨404, "Pet not found"⟩) ∧
    (∀ pid p, (pid, p) ∈ s.PETS → p.owner_id ≠ oid →
      Dict.get (delete_owner s oid).2.PETS pid = some p) := by
  simp only [delete_owner, if_pos hk]
  refine ⟨trivial, Dict.get_erase_self _ _, ?_, ?_⟩
  · intro pid p hmem howner
    have hnone :
        Dict.get (s.PETS.filter (fun kv => kv.snd.owner_id != oid)) pid = none := by
      refine Dict.get_eq_none ?_
      rintro ⟨kf, kp⟩ hkv hfst
      subst hfst
      obtain ⟨hin, hpred⟩ := List.mem_filter.mp hkv
      have hkp : kp = p := Dict.value_eq_of_mem_nodup hnd hin hmem
      rw [hkp] at hpred
      simp [howner] at hpred
    simp [get_pet, hnone]
  · intro pid p hmem hneq
    have hmem2 : (pid, p) ∈ s.PETS.filter (fun kv => kv.snd.owner_id != oid) :=
      List.mem_filter.mpr ⟨hmem, by simpa using hneq⟩
    exact Dict.get_of_mem_nodup (Dict.nodup_keys_filter hnd _) hmem2

/-- Claim C1 exercised on a concrete input: deleting owner 0 from
`sampleState` removes it together with its Pet 1, after which GET /pets/1 is
a 404, while Pet 2 (owned by 3) survives untouched. -/
theorem C1_delete_owner_cascade_witness :
    (Dict.keys sampleState.PETS).Nodup ∧
    Dict.hasKey sampleState.OWNERS 0 = true ∧
    ((delete_owner sampleState 0).1 = Except.ok () ∧
      Dict.get (delete_owner sampleState 0).2.OWNERS 0 = none ∧
      (∀ pid p, (pid, p) ∈ sampleState.PETS → p.owner_id = 0 →
        (get_pet (delete_owner sampleState 0).2 pid).1 =
          Except.error ⟨404, "Pet not found"⟩) ∧
      (∀ pid p, (pid, p) ∈ sampleState.PETS → p.owner_id ≠ 0 →
        Dict.get (delete_owner sampleState 0).2.PETS pid = some p)) :=
  ⟨by decide, by decide,
    C1_delete_owner_cascade sampleState 0 (by decide) (by decide)⟩

/-- Claim C3 as stated is false on the code: PATCH does not leave every
not-supplied field unchanged.  Concretely, create an Owner from `adaWithPet`
(whose stored pets list is the client-supplied one-element list) and patch it
with the empty update `noChange`: although the payload supplies no field, the
stored pets field changes from that one-element list to the empty live
recomputation. -/
theorem C3_counterexample :
    noChange = { first_name := none, last_name := none, phone := none,
                 email := none, birth_date := none } ∧
    Option.map OwnerRead.pets (Dict.get stateA.OWNERS 0) =
      some [{ id := 5, name := "Boba", species := "Cat" }] ∧
    Option.map OwnerRead.pets
        (Dict.get (patch_owner stateA 0 0 noChange).2.OWNERS 0) = some [] := by
  decide

/-- Claim C3 amended: on an existing Owner or Pet, PATCH with a payload that
does not supply an explicit null for a required Owner field succeeds,
preserves id and created_at, overwrites exactly the explicitly supplied
fields, leaves the other scalar fields unchanged, and sets updated_at to the
current reading, a value ≥ the prior updated_at — except that the derived
pets field of an Owner is not kept but overwritten with its recomputation
from the live Pet map.  A payload that does supply an explicit null for
first_name, last_name or phone makes the re-validation raise (HTTP 500) and
leaves the state unchanged.  (For a supplied required Owner field the merged
value is the supplied string, stated here as
`some o2.field = supplied.getD (some o.field)`.) -/
theorem C3_patch_partial_update_amended (s : AppState) (now oid pid : Nat)
    (uo : OwnerUpdate) (up : PetUpdate) (o : OwnerRead) (p : PetRead)
    (hInv : Inv s) (hclock : s.clock ≤ now)
    (ho : Dict.get s.OWNERS oid = some o)
    (hp : Dict.get s.PETS pid = some p) :
    ((uo.first_name ≠ some none ∧ uo.last_name ≠ some none ∧
        uo.phone ≠ some none) →
      ∃ o2, (patch_owner s now oid uo).1 = Except.ok o2 ∧
        Dict.get (patch_owner s now oid uo).2.OWNERS oid = some o2 ∧
        o2.id = o.id ∧ o2.created_at = o.created_at ∧
        some o2.first_name = uo.first_name.getD (some o.first_name) ∧
        some o2.last_name = uo.last_name.getD (some o.last_name) ∧
        some o2.phone = uo.phone.getD (some o.phone) ∧
        o2.email = uo.email.getD o.email ∧
        o2.birth_date = uo.birth_date.getD o.birth_date ∧
        o2.pets = livePetsOf s oid ∧
        o.updated_at ≤ o2.updated_at ∧ o2.updated_at = now) ∧
    ((uo.first_name = some none ∨ uo.last_name = some none ∨
        uo.phone = some none) →
      (patch_owner s now oid uo).1 =
        Except.error ⟨500, "Internal Server Error"⟩ ∧
      (patch_owner s now oid uo).2 = s) ∧
    (∃ p2, (patch_pet s now pid up).1 = Except.ok p2 ∧
      Dict.get (patch_pet s now pid up).2.PETS pid = some p2 ∧
      p2.id = p.id ∧ p2.created_at = p.created_at ∧
      p2.owner_id = up.owner_id.getD p.owner_id ∧
      p2.name = up.name.getD p.name ∧
      p2.species = up.species.getD p.species ∧
      p.updated_at ≤ p2.updated_at ∧ p2.updated_at = now) := by
  obtain ⟨⟨hto, htp⟩, _, _, _⟩ := hInv
  refine ⟨?_, ?_, ?_⟩
  · rintro ⟨h1, h2, h3⟩
    obtain ⟨m, happ⟩ := applyOwnerUpdate_isSome o uo now h1 h2 h3
    obtain ⟨hmid, hmcr, hmup, _, hmfn, hmln, hmph, hmem2, hmbd⟩ :=
      applyOwnerUpdate_some happ
    have hmem : (oid, o) ∈ s.OWNERS := Dict.mem_of_get_eq_some ho
    have hb := hto (oid, o) hmem
    simp only [patch_owner, ho, happ]
    refine ⟨{ m with pets := livePetsOf s oid }, rfl, Dict.get_set_self _ _ _,
      hmid, hmcr, hmfn, hmln, hmph, hmem2, hmbd, rfl, ?_, hmup⟩
    show o.updated_at ≤ m.updated_at
    rw [hmup]
    exact Nat.le_trans hb.2 hclock
  · intro herr
    have happ : applyOwnerUpdate o uo now = none :=
      applyOwnerUpdate_eq_none o uo now herr
    simp only [patch_owner, ho, happ]
    exact ⟨trivial, trivial⟩
  · have hmem : (pid, p) ∈ s.PETS := Dict.mem_of_get_eq_some hp
    have hb := htp (pid, p) hmem
    simp only [patch_pet, hp]
    refine ⟨_, rfl, Dict.get_set_self _ _ _, rfl, rfl, rfl, rfl, rfl, ?_, rfl⟩
    exact Nat.le_trans hb.2 hclock

/-- Claim C3 (amended) exercised on concrete inputs: patching owner 0 of
`sampleState` with only a first name and pet 1 with only a species keeps
every other scalar field, refreshes both updated_at stamps to 7, overwrites
the owner pets field with the live recomputation, and a payload supplying an
explicit null for a required field would instead yield a 500 with the state
unchanged. -/
theorem C3_patch_partial_update_amended_witness :
    Inv sampleState ∧
    sampleState.clock ≤ 7 ∧
    Dict.get sampleState.OWNERS 0 = some sampleOwner ∧
    Dict.get sampleState.PETS 1 = some samplePetA ∧
    ((((some (some "Grace") : Option (Option String)) ≠ some none ∧
        (none : Option (Option String)) ≠ some none ∧
        (none : Option (Option String)) ≠ some none) →
      ∃ o2, (patch_owner sampleState 7 0
          { first_name := some (some "Grace") }).1 = Except.ok o2 ∧
        Dict.get (patch_owner sampleState 7 0
            { first_name := some (some "Grace") }).2.OWNERS 0 = some o2 ∧
        o2.id = sampleOwner.id ∧ o2.created_at = sampleOwner.created_at ∧
        some o2.first_name =
          (some (some "Grace")).getD (some sampleOwner.first_name) ∧
        some o2.last_name = Option.getD none (some sampleOwner.last_name) ∧
        some o2.phone = Option.getD none (some sampleOwner.phone) ∧
        o2.email = Option.getD none sampleOwner.email ∧
        o2.birth_date = Option.getD none sampleOwner.birth_date ∧
        o2.pets = livePetsOf sampleState 0 ∧
        sampleOwner.updated_at ≤ o2.updated_at ∧ o2.updated_at = 7) ∧
    (((some (some "Grace") : Option (Option String)) = some none ∨
        (none : Option (Option String)) = some none ∨
        (none : Option (Option String)) = some none) →
      (patch_owner sampleState 7 0
          { first_name := some (some "Grace") }).1 =
        Except.error ⟨500, "Internal Server Error"⟩ ∧
      (patch_owner sampleState 7 0
          { first_name := some (some "Grace") }).2 = sampleState) ∧
    (∃ p2, (patch_pet sampleState 7 1
          { species := some "Hamster" }).1 = Except.ok p2 ∧
      Dict.get (patch_pet sampleState 7 1
          { species := some "Hamster" }).2.PETS 1 = some p2 ∧
      p2.id = samplePetA.id ∧ p2.created_at = samplePetA.created_at ∧
      p2.owner_id = Option.getD none samplePetA.owner_id ∧
      p2.name = Option.getD none samplePetA.name ∧
      p2.species = (some "Hamster").getD samplePetA.species ∧
      samplePetA.updated_at ≤ p2.updated_at ∧ p2.updated_at = 7)) :=
  ⟨by decide, by decide, by decide, by decide,
    C3_patch_partial_update_amended sampleState 7 0 1
      { first_name := some (some "Grace") } { species := some "Hamster" }
      sampleOwner samplePetA (by decide) (by decide) (by decide) (by decide)⟩

end OwnerPet
